import Mathlib

/-!
# halt-runner: a verification development of `main.go`

The runner reads a YAML list of process specifications, keeps one child process
per specification running (restart after every exit, five seconds later) and
relays the two output streams of each child, line by line, to its own standard
output with a `[name] ` tag.

The development embeds

* the relay `pipeOutput` together with the part of Go's `bufio.Scanner` it runs on
  (`NewScanner`, `Scan`, `Text`, `Err`, the split function `ScanLines`),
* the restart loop `runProcess`, as a trace of the calls it makes and as a step
  function over the four phases of one iteration,
* `loadConfig` and `main`.

Conventions.  A Go `string` is a Lean `String`; a byte of a stream is a `Char`
and a `[]byte` is a `List Char`.  Standard output is the list of the strings
written by the successive `fmt.Printf` calls.  An `error` is a `GoError`, the
`nil` error is `none`.  Loops that need not end take a fuel argument and return
`none` when it runs out.
-/

namespace Runner

/-! ## Errors -/

/-- The error values that reach the relay: the sentinels of `io` and `bufio`,
and any other error a `Read` on the pipe returns, carried as its message. -/
inductive GoError where
  | EOF
  | ErrTooLong
  | ErrAdvanceTooFar
  | ErrBadReadCount
  | ErrNoProgress
  | other (msg : String)
  deriving DecidableEq, Repr

/-- The method `Error()`, which is what `%v` prints. -/
def GoError.Error : GoError → String
  | .EOF => "EOF"
  | .ErrTooLong => "bufio.Scanner: token too long"
  | .ErrAdvanceTooFar => "bufio.Scanner: SplitFunc returns advance count beyond input"
  | .ErrBadReadCount => "bufio.Scanner: Read returned impossible count"
  | .ErrNoProgress => "multiple Read calls return no data or error"
  | .other msg => msg

/-! ## The stream: an `io.Reader` -/

/-- The reading end of a pipe, seen from the relay: the data that successive
`Read` calls find available (`chunks`), and the error every `Read` returns once
the data is used up (`final`; `io.EOF` when the writing end was closed). -/
structure Reader where
  chunks : List (List Char)
  final : GoError
  deriving DecidableEq, Repr

/-- The call `r.Read(p)` with `len(p) = n`: the bytes stored in `p`, the error,
and the reader afterwards.  At most `n` bytes of the next chunk are taken; the
rest of the chunk stays for the next call. -/
def Reader.Read (r : Reader) (n : Nat) : List Char × Option GoError × Reader :=
  match r.chunks with
  | [] => ([], some r.final, r)
  | c :: cs =>
    if c.length ≤ n then (c, none, { r with chunks := cs })
    else (c.take n, none, { r with chunks := c.drop n :: cs })

/-- All the bytes the reader still delivers. -/
def Reader.bytes (r : Reader) : List Char := r.chunks.flatten

/-! ## `bufio.Scanner` with the split function `ScanLines` -/

/-- Constant `bufio.MaxScanTokenSize`. -/
def MaxScanTokenSize : Nat := 64 * 1024

/-- Constant `startBufSize` of `bufio`. -/
def startBufSize : Nat := 4096

/-- Constant `maxConsecutiveEmptyReads` of `bufio`. -/
def maxConsecutiveEmptyReads : Nat := 100

/-- The largest `int` (64 bit). -/
def maxInt : Nat := 2 ^ 63 - 1

/-- Function `bytes.IndexByte`: the index of the first `c` in `data`, `none` for
Go's `-1`. -/
def IndexByte : List Char → Char → Option Nat
  | [], _ => none
  | b :: bs, c => if b = c then some 0 else (IndexByte bs c).map (· + 1)

/-- Function `dropCR` of `bufio`: drops one terminal carriage return. -/
def dropCR (data : List Char) : List Char :=
  if 0 < data.length ∧ data.getLast? = some '\r' then data.take (data.length - 1) else data

/-- Function `bufio.ScanLines`: the advance count and the token (`none` for
`nil`); its third result, the error, is `nil` on every path. -/
def ScanLines (data : List Char) (atEOF : Bool) : Nat × Option (List Char) :=
  if atEOF ∧ data.length = 0 then (0, none)
  else
    match IndexByte data '\n' with
    | some i => (i + 1, some (dropCR (data.take i)))
    | none => if atEOF then (data.length, some (dropCR data)) else (0, none)

/-- The fields of `bufio.Scanner` that `Scan` works on.  The buffer `buf` is
kept as its length `bufLen`, the offset `start` and its live part
`data = buf[start:end]`, so that `end = start + len(data)`. -/
structure Scanner where
  r : Reader
  maxTokenSize : Nat
  token : List Char
  bufLen : Nat
  start : Nat
  data : List Char
  err : Option GoError
  deriving DecidableEq, Repr

/-- Function `bufio.NewScanner`: split function `ScanLines`, token limit
`MaxScanTokenSize`, no buffer yet. -/
def NewScanner (r : Reader) : Scanner :=
  { r := r, maxTokenSize := MaxScanTokenSize, token := [], bufLen := 0, start := 0,
    data := [], err := none }

/-- The field `end` of the scanner. -/
def Scanner.endPos (s : Scanner) : Nat := s.start + s.data.length

/-- Method `setErr`: records the first error that is not `io.EOF`. -/
def Scanner.setErr (s : Scanner) (e : GoError) : Scanner :=
  if s.err = none ∨ s.err = some .EOF then { s with err := some e } else s

/-- Method `advance`: consumes `n` bytes of the buffer, or reports an advance
beyond the input. -/
def Scanner.advance (s : Scanner) (n : Nat) : Bool × Scanner :=
  if s.data.length < n then (false, s.setErr .ErrAdvanceTooFar)
  else (true, { s with start := s.start + n, data := s.data.drop n })

/-- First part of the body of the loop in `Scan`: when there is data, or the
input has ended, ask the split function for a token.  `Sum.inl` is a `return`
from `Scan`, `Sum.inr` falls through to the rest of the loop body.

`ScanLines` returns no error and no token without advancing, so the
`ErrFinalToken` branch, the field `done` and the `empties` counter of the Go
code are left out (see `ScanLines_token_advance`). -/
def Scanner.tryToken (s : Scanner) : (Bool × Scanner) ⊕ Scanner :=
  if 0 < s.data.length ∨ s.err ≠ none then
    match ScanLines s.data (decide (s.err ≠ none)) with
    | (adv, token) =>
      match s.advance adv with
      | (false, s1) => .inl (false, s1)
      | (true, s1) =>
        match token with
        | some t => .inl (true, { s1 with token := t })
        | none => .inr { s1 with token := [] }
  else .inr s

/-- Second part of the loop body: shift the data to the beginning of the buffer
when there is a lot of empty space or space is needed. -/
def Scanner.shift (s : Scanner) : Scanner :=
  if 0 < s.start ∧ (s.endPos = s.bufLen ∨ s.bufLen / 2 < s.start) then { s with start := 0 }
  else s

/-- Third part of the loop body: a full buffer is doubled, up to `maxTokenSize`;
a full buffer of that size is the error `ErrTooLong`, and `Scan` returns. -/
def Scanner.grow (s : Scanner) : (Bool × Scanner) ⊕ Scanner :=
  if s.endPos = s.bufLen then
    if s.maxTokenSize ≤ s.bufLen ∨ maxInt / 2 < s.bufLen then
      .inl (false, s.setErr .ErrTooLong)
    else
      let newSize := if s.bufLen * 2 = 0 then startBufSize else s.bufLen * 2
      .inr { s with bufLen := min newSize s.maxTokenSize, start := 0 }
  else .inr s

/-- Fourth part of the loop body, the inner loop that reads into the free part of
the buffer.  `k` is the number of reads still allowed: Go's counter `loop` is
`maxConsecutiveEmptyReads + 1 - k`. -/
def Scanner.readMore : Nat → Scanner → Scanner
  | 0, s => s.setErr .ErrNoProgress
  | k + 1, s =>
    match s.r.Read (s.bufLen - s.endPos) with
    | (p, err, r1) =>
      if s.bufLen - s.endPos < p.length then { s with r := r1 }.setErr .ErrBadReadCount
      else
        let s1 : Scanner := { s with r := r1, data := s.data ++ p }
        match err with
        | some e => s1.setErr e
        | none => if 0 < p.length then s1 else Scanner.readMore k s1

/-- Method `Scan`: advances to the next token; `true` when there is one. -/
def Scanner.Scan : Nat → Scanner → Option (Bool × Scanner)
  | 0, _ => none
  | fuel + 1, s =>
    match s.tryToken with
    | .inl res => some res
    | .inr s1 =>
      if s1.err ≠ none then some (false, { s1 with start := 0, data := [] })
      else
        match s1.shift.grow with
        | .inl res => some res
        | .inr s2 => Scanner.Scan fuel (s2.readMore (maxConsecutiveEmptyReads + 1))

/-- Method `Text`: the last token as a string. -/
def Scanner.Text (s : Scanner) : String := String.mk s.token

/-- Method `Err`: the first error met that is not `io.EOF`. -/
def Scanner.Err (s : Scanner) : Option GoError :=
  if s.err = some .EOF then none else s.err

/-! ## The relay `pipeOutput` -/

/-- The string written by `fmt.Printf("[%s] %s\n", name, text)`. -/
def outputLine (name text : String) : String := "[" ++ name ++ "] " ++ text ++ "\n"

/-- The string written by `fmt.Printf("Error reading output from %s: %v\n", name, err)`. -/
def readErrorLine (name : String) (e : GoError) : String :=
  "Error reading output from " ++ name ++ ": " ++ e.Error ++ "\n"

/-- The string written by `fmt.Printf("[%s] Process completed with no output.\n", name)`. -/
def noOutputLine (name : String) : String :=
  "[" ++ name ++ "] Process completed with no output.\n"

/-- The loop `for scanner.Scan() { fmt.Printf(...) }` of `pipeOutput`: the
strings written, in order, and the scanner when `Scan` has returned `false`.
The first argument is the fuel of each `Scan`, the third that of the loop. -/
def pipeOutputLoop (fuel : Nat) (name : String) : Nat → Scanner → Option (List String × Scanner)
  | 0, _ => none
  | n + 1, s =>
    match s.Scan fuel with
    | none => none
    | some (false, s1) => some ([], s1)
    | some (true, s1) =>
      match pipeOutputLoop fuel name n s1 with
      | none => none
      | some (out, s2) => some (outputLine name s1.Text :: out, s2)

/-- Function `pipeOutput`: everything it writes to standard output.  Its first
parameter, `prefix` in the source, is called `name` here. -/
def pipeOutput (fuel : Nat) (name : String) (reader : Reader) : Option (List String) :=
  match pipeOutputLoop fuel name fuel (NewScanner reader) with
  | none => none
  | some (out, s) =>
    match s.Err with
    | some e => some (out ++ [readErrorLine name e])
    | none => some (out ++ [noOutputLine name])

/-! ## Process specifications and the configuration -/

/-- The struct `Process`: one process to run. -/
structure Process where
  Name : String
  Command : String
  Args : List String
  WorkingDir : String
  deriving DecidableEq, Repr

/-- The struct `Config`: all processes to run. -/
structure Config where
  Processes : List Process
  deriving DecidableEq, Repr

/-- What the runner asks of the file system and of the libraries: `os.ReadFile`,
`yaml.Unmarshal` into a `Config`, and `filepath.Abs` (its string result and its
error). -/
structure World where
  ReadFile : String → Except GoError (List Char)
  Unmarshal : List Char → Except GoError Config
  Abs : String → String × Option GoError

/-- Function `loadConfig`: loads the configuration from a YAML file. -/
def loadConfig (w : World) (configFile : String) : Except GoError Config :=
  match w.ReadFile configFile with
  | .error err => .error err
  | .ok file =>
    match w.Unmarshal file with
    | .error err => .error err
    | .ok config => .ok config

/-! ## The calls the runner makes -/

/-- The two output streams of a child. -/
inductive Pipe where
  | stdout
  | stderr
  deriving DecidableEq, Repr

/-- The signals `main` listens for. -/
inductive Signal where
  | SIGINT
  | SIGTERM
  deriving DecidableEq, Repr

/-- The observable calls of `main` and `runProcess`, in the order they are made.

* `log msg`: the standard logger prints `msg` on standard error;
* `exit code`: `os.Exit(code)`, the whole program ends;
* `print s`: `fmt.Printf` or `fmt.Println` writes `s` to standard output;
* `cmdStart command args dir`: the call `cmd.Start()` for that command line and
  working directory;
* `goPipeOutput name pipe`: the statement `go pipeOutput(name, pipe)`;
* `cmdWait`: the call `cmd.Wait()`, which returns when the child has exited;
* `sleep d`: `time.Sleep(d)`, with `d` in nanoseconds;
* `notify sigs`: `signal.Notify(sigChan, sigs...)`;
* `goRunProcess proc`: the statement `go runProcess(proc)`;
* `receive`: the receive `<-sigChan`. -/
inductive Action where
  | log (msg : String)
  | exit (code : Nat)
  | print (s : String)
  | cmdStart (command : String) (args : List String) (dir : String)
  | goPipeOutput (name : String) (pipe : Pipe)
  | cmdWait
  | sleep (d : Nat)
  | notify (sigs : List Signal)
  | goRunProcess (proc : Process)
  | receive
  deriving DecidableEq, Repr

/-- The calls `log.Fatal(msg)` and `log.Fatalf(...)` with the formatted message
`msg`: a print of the logger followed by `os.Exit(1)`. -/
def logFatal (msg : String) : List Action := [.log msg, .exit 1]

/-- Constant `time.Second`, in nanoseconds. -/
def Second : Nat := 1000000000

/-! ## The restart loop `runProcess` -/

/-- What the operating system answers in one turn of the loop of `runProcess`:
the errors of `cmd.StdoutPipe()`, `cmd.StderrPipe()`, `cmd.Start()` and
`cmd.Wait()` (`none` for `nil`). -/
structure Iteration where
  stdoutPipe : Option GoError
  stderrPipe : Option GoError
  start : Option GoError
  wait : Option GoError
  deriving DecidableEq, Repr

/-- The line printed after `cmd.Wait()` has returned `err`. -/
def exitLine (proc : Process) : Option GoError → String
  | some err => "Process " ++ proc.Name ++ " exited unexpectedly: " ++ err.Error ++ "\n"
  | none => "Process " ++ proc.Name ++ " exited normally.\n"

/-- Function `runProcess`: the calls made during the turns of its loop for which
the list gives the answers of the operating system.  The loop has no exit of its
own: the trace ends with the answers, or with `os.Exit`. -/
def runProcess (w : World) (proc : Process) : List Iteration → List Action
  | [] => []
  | it :: rest =>
    let dir := (w.Abs proc.WorkingDir).1
    match it.stdoutPipe with
    | some err =>
      logFatal ("Failed to get stdout for process " ++ proc.Name ++ ": " ++ err.Error)
    | none =>
      match it.stderrPipe with
      | some err =>
        logFatal ("Failed to get stderr for process " ++ proc.Name ++ ": " ++ err.Error)
      | none =>
        match it.start with
        | some err =>
          .cmdStart proc.Command proc.Args dir ::
            logFatal ("Failed to start process " ++ proc.Name ++ ": " ++ err.Error)
        | none =>
          [.cmdStart proc.Command proc.Args dir,
           .goPipeOutput proc.Name .stdout,
           .goPipeOutput proc.Name .stderr,
           .print ("Started process: " ++ proc.Name ++ "\n"),
           .cmdWait,
           .print (exitLine proc it.wait),
           .sleep (5 * Second)] ++ runProcess w proc rest

/-! ### The loop as a state machine -/

/-- The four phases of one turn of the loop: before `cmd.Start()` has returned,
while `cmd.Wait()` is pending, after it has returned, and during `time.Sleep`. -/
inductive Phase where
  | Starting
  | Running
  | Exited
  | Sleeping
  deriving DecidableEq, Repr

/-- The state of the loop of one specification: the phase, the number of
children started by `cmd.Start()` whose `cmd.Wait()` has not returned yet, and
the value of `err` after `cmd.Wait()`. -/
structure LoopState where
  phase : Phase
  alive : Nat
  waitErr : Option GoError
  deriving DecidableEq, Repr

/-- The state at the entry of `runProcess`. -/
def LoopState.init : LoopState := { phase := .Starting, alive := 0, waitErr := none }

/-- The result of one step: the loop goes on in a next state, or the whole
program has ended in `os.Exit`.  There is no third case: the loop has no
`break` and no `return`. -/
inductive StepResult where
  | next (s : LoopState) (acts : List Action)
  | exit (acts : List Action)
  deriving DecidableEq, Repr

/-- One step of the loop of `runProcess`, by phase: lines 47 to 67 (create the
command and the pipes, start the child and its two relays), line 70 (wait),
lines 71 to 75 (log the outcome), line 78 (sleep). -/
def step (w : World) (proc : Process) (it : Iteration) (s : LoopState) : StepResult :=
  match s.phase with
  | .Starting =>
    let dir := (w.Abs proc.WorkingDir).1
    match it.stdoutPipe with
    | some err =>
      .exit (logFatal ("Failed to get stdout for process " ++ proc.Name ++ ": " ++ err.Error))
    | none =>
      match it.stderrPipe with
      | some err =>
        .exit (logFatal ("Failed to get stderr for process " ++ proc.Name ++ ": " ++ err.Error))
      | none =>
        match it.start with
        | some err =>
          .exit (.cmdStart proc.Command proc.Args dir ::
            logFatal ("Failed to start process " ++ proc.Name ++ ": " ++ err.Error))
        | none =>
          .next { s with phase := .Running, alive := s.alive + 1 }
            [.cmdStart proc.Command proc.Args dir,
             .goPipeOutput proc.Name .stdout,
             .goPipeOutput proc.Name .stderr,
             .print ("Started process: " ++ proc.Name ++ "\n")]
  | .Running =>
    .next { phase := .Exited, alive := s.alive - 1, waitErr := it.wait } [.cmdWait]
  | .Exited =>
    .next { s with phase := .Sleeping } [.print (exitLine proc s.waitErr)]
  | .Sleeping =>
    .next { s with phase := .Starting } [.sleep (5 * Second)]

/-- The number of calls of `cmd.Start()` in a trace. -/
def startCalls : List Action → Nat
  | [] => 0
  | .cmdStart _ _ _ :: rest => startCalls rest + 1
  | _ :: rest => startCalls rest

/-- The number of calls of `cmd.Wait()` in a trace; each has returned, so a
child has exited, before the next call of the trace is made. -/
def waitReturns : List Action → Nat
  | [] => 0
  | .cmdWait :: rest => waitReturns rest + 1
  | _ :: rest => waitReturns rest

/-- The states the loop can be in, each with the calls made on the way to it:
the entry state with no call made, and every state a step leads to from such a
state, with the calls of that step added. -/
inductive ReachableBy (w : World) (proc : Process) : List Action → LoopState → Prop
  | init : ReachableBy w proc [] LoopState.init
  | step (it : Iteration) (tr : List Action) (s s1 : LoopState) (acts : List Action) :
      ReachableBy w proc tr s → step w proc it s = .next s1 acts →
      ReachableBy w proc (tr ++ acts) s1

/-- The calls made by the steps of the machine, with four steps to each turn of
the loop, from a state `s`. -/
def runSteps (w : World) (proc : Process) : List Iteration → LoopState → List Action
  | [], _ => []
  | it :: rest, s =>
    match step w proc it s with
    | .exit a1 => a1
    | .next s1 a1 =>
      match step w proc it s1 with
      | .exit a2 => a1 ++ a2
      | .next s2 a2 =>
        match step w proc it s2 with
        | .exit a3 => a1 ++ a2 ++ a3
        | .next s3 a3 =>
          match step w proc it s3 with
          | .exit a4 => a1 ++ a2 ++ a3 ++ a4
          | .next s4 a4 => a1 ++ a2 ++ a3 ++ a4 ++ runSteps w proc rest s4

/-! ## The entry point `main` -/

/-- Function `main`: the calls it makes, given the command line `args`
(`os.Args`, the program name first) and the signal that arrives, if one does. -/
def main (w : World) (args : List String) (sig : Option Signal) : List Action :=
  if args.length < 2 then logFatal "Usage: runner <config-file>"
  else
    let configFile := args.getD 1 ""
    match loadConfig w configFile with
    | .error err => logFatal ("Failed to load config: " ++ err.Error)
    | .ok config =>
      [.notify [.SIGINT, .SIGTERM]] ++ config.Processes.map .goRunProcess ++
        .receive ::
          (match sig with
           | some _ => [.print "Shutting down runner...\n"]
           | none => [])

/-- The specifications of the restart loops started in a trace, in order. -/
def loopsStarted : List Action → List Process
  | [] => []
  | .goRunProcess proc :: rest => proc :: loopsStarted rest
  | _ :: rest => loopsStarted rest

/-! ## What a stream yields

The notions the statements about the relay are written in. -/

/-- The scanner `s` yields the lines `ls` and then stops with `Err() = e`:
successive calls of `Scan` return `true` with `Text()` equal to each line in
turn, and the next call returns `false`. -/
inductive Yields : Scanner → List String → Option GoError → Prop
  | stop (fuel : Nat) (s s1 : Scanner) :
      s.Scan fuel = some (false, s1) → Yields s [] s1.Err
  | line (fuel : Nat) (s s1 : Scanner) (ls : List String) (e : Option GoError) :
      s.Scan fuel = some (true, s1) → Yields s1 ls e → Yields s (s1.Text :: ls) e

/-- The last string `pipeOutput` writes, after the loop. -/
def closingLine (name : String) : Option GoError → String
  | some e => readErrorLine name e
  | none => noOutputLine name

/-- All the tokens of a scanner, as strings, and `Err()` after the last call of
`Scan`: the loop of `pipeOutput` without the printing. -/
def scanAll (fuel : Nat) : Nat → Scanner → Option (List String × Option GoError)
  | 0, _ => none
  | n + 1, s =>
    match s.Scan fuel with
    | none => none
    | some (false, s1) => some ([], s1.Err)
    | some (true, s1) =>
      match scanAll fuel n s1 with
      | none => none
      | some (ls, e) => some (s1.Text :: ls, e)

/-- The state of a scanner between two calls of `Scan`, while no error has been
met: the limit is that of `NewScanner`, the data lies inside the buffer, the
buffer is not larger than the limit, and every read that is left returns data. -/
structure Scanner.Inv (s : Scanner) : Prop where
  err : s.err = none
  max : s.maxTokenSize = MaxScanTokenSize
  fits : s.start + s.data.length ≤ s.bufLen
  cap : s.bufLen ≤ MaxScanTokenSize
  chunks : ∀ c ∈ s.r.chunks, c ≠ []

/-- The bytes the scanner has not turned into tokens yet: those in its buffer,
then those the reader still delivers. -/
def Scanner.pending (s : Scanner) : List Char := s.data ++ s.r.bytes

/-- The bytes of the lines `ls`, each followed by a newline. -/
def joinLines (ls : List (List Char)) : List Char := (ls.map (fun l => l ++ ['\n'])).flatten

/-- The value of `Err()` after a reader has ended with the error `final`. -/
def errAfter (final : GoError) : Option GoError := if final = .EOF then none else some final

/-- The token made of what follows the last newline, if anything does. -/
def lastLine (tail : List Char) : List String :=
  if tail = [] then [] else [String.mk (dropCR tail)]

/-! ## Turns of the restart loop -/

/-- An iteration in which both pipes are created and the child starts. -/
def Iteration.started (it : Iteration) : Prop :=
  it.stdoutPipe = none ∧ it.stderrPipe = none ∧ it.start = none

/-- The calls of one turn of the loop in which the child starts and, later,
exits with `it.wait`. -/
def turnTrace (w : World) (proc : Process) (it : Iteration) : List Action :=
  [.cmdStart proc.Command proc.Args (w.Abs proc.WorkingDir).1,
   .goPipeOutput proc.Name .stdout,
   .goPipeOutput proc.Name .stderr,
   .print ("Started process: " ++ proc.Name ++ "\n"),
   .cmdWait,
   .print (exitLine proc it.wait),
   .sleep (5 * Second)]

/-! ## Sample inputs -/

/-- A stream with the lines `x` and `y`, delivered in two reads, then closed. -/
def sampleReader : Reader := { chunks := ["x\ny".toList, "\n".toList], final := .EOF }

/-- A stream that is closed at once. -/
def emptyReader : Reader := { chunks := [], final := .EOF }

/-- A stream broken by a read error after the line `x`. -/
def brokenReader : Reader :=
  { chunks := ["x\n".toList], final := .other "read |0: file already closed" }

/-- A line of 65536 bytes. -/
def longLine : List Char := List.replicate 65536 'x'

/-- A stream with the line `ab`, then a line of 65536 bytes, then the line `cd`. -/
def longReader : Reader :=
  { chunks := ["ab\n".toList, longLine, "\ncd\n".toList], final := .EOF }

/-- A process specification. -/
def sampleProcess : Process :=
  { Name := "web", Command := "serve", Args := ["-p", "80"], WorkingDir := "site" }

/-- A second process specification. -/
def otherProcess : Process :=
  { Name := "db", Command := "store", Args := [], WorkingDir := "data" }

/-- A world with one configuration file, `runner.yaml`, that lists the two
sample processes. -/
def sampleWorld : World :=
  { ReadFile := fun path =>
      if path = "runner.yaml" then .ok "processes: ...".toList
      else .error (.other ("open " ++ path ++ ": no such file or directory"))
    Unmarshal := fun _ => .ok { Processes := [sampleProcess, otherProcess] }
    Abs := fun dir => ("/srv/" ++ dir, none) }

/-- A turn of the loop in which the child starts and exits with status 1. -/
def crashTurn : Iteration :=
  { stdoutPipe := none, stderrPipe := none, start := none,
    wait := some (.other "exit status 1") }

/-- A turn of the loop in which the child cannot be started. -/
def failedTurn : Iteration :=
  { stdoutPipe := none, stderrPipe := none,
    start := some (.other "fork/exec serve: no such file or directory"),
    wait := none }

/-! ## Fuel -/

theorem Scan_mono {fuel : Nat} {s : Scanner} {res : Bool × Scanner}
    (h : s.Scan fuel = some res) : ∀ {fuel2 : Nat}, fuel ≤ fuel2 → s.Scan fuel2 = some res := by
  induction fuel generalizing s with
  | zero => simp [Scanner.Scan] at h
  | succ n ih =>
    intro fuel2 hle
    obtain ⟨m, rfl⟩ : ∃ m, fuel2 = m + 1 := ⟨fuel2 - 1, by omega⟩
    simp only [Scanner.Scan] at h ⊢
    split
    · rename_i res1 h1
      simpa [h1] using h
    · rename_i s1 h1
      simp only [h1] at h
      split
      · rename_i herr
        simpa [herr] using h
      · rename_i herr
        simp only [herr, if_false] at h
        split
        · rename_i res2 h2
          simpa [h2] using h
        · rename_i s2 h2
          simp only [h2] at h
          exact ih h (by omega)

theorem pipeOutputLoop_mono {name : String} {fuel n : Nat} {s : Scanner}
    {res : List String × Scanner} (h : pipeOutputLoop fuel name n s = some res) :
    ∀ {fuel2 n2 : Nat}, fuel ≤ fuel2 → n ≤ n2 → pipeOutputLoop fuel2 name n2 s = some res := by
  induction n generalizing s res with
  | zero => simp [pipeOutputLoop] at h
  | succ n ih =>
    intro fuel2 n2 hf hn
    obtain ⟨m, rfl⟩ : ∃ m, n2 = m + 1 := ⟨n2 - 1, by omega⟩
    simp only [pipeOutputLoop] at h ⊢
    cases hs : s.Scan fuel with
    | none => simp [hs] at h
    | some r =>
      obtain ⟨b, s1⟩ := r
      rw [Scan_mono hs hf]
      cases b with
      | false => simpa [hs] using h
      | true =>
        simp only [hs] at h
        cases hl : pipeOutputLoop fuel name n s1 with
        | none => simp [hl] at h
        | some r2 =>
          have h2 := @ih s1 r2 hl fuel2 m hf (by omega)
          simp only [h2]
          simpa [hl] using h

theorem pipeOutput_mono {name : String} {fuel : Nat} {r : Reader} {out : List String}
    (h : pipeOutput fuel name r = some out) :
    ∀ {fuel2 : Nat}, fuel ≤ fuel2 → pipeOutput fuel2 name r = some out := by
  intro fuel2 hf
  simp only [pipeOutput] at h ⊢
  cases hl : pipeOutputLoop fuel name fuel (NewScanner r) with
  | none => simp [hl] at h
  | some res =>
    rw [pipeOutputLoop_mono hl hf hf]
    simpa [hl] using h

theorem pipeOutputLoop_of_Yields (name : String) {s : Scanner} {ls : List String}
    {e : Option GoError} (h : Yields s ls e) :
    ∃ N sf, sf.Err = e ∧ ∀ fuel n, N ≤ fuel → N ≤ n →
      pipeOutputLoop fuel name n s = some (ls.map (outputLine name), sf) := by
  induction h with
  | stop fuel s s1 hs =>
    refine ⟨fuel + 1, s1, rfl, ?_⟩
    intro f n hf hn
    obtain ⟨m, rfl⟩ : ∃ m, n = m + 1 := ⟨n - 1, by omega⟩
    simp [pipeOutputLoop, Scan_mono hs (show fuel ≤ f by omega)]
  | line fuel s s1 ls e hs _ ih =>
    obtain ⟨N, sf, he, hN⟩ := ih
    refine ⟨max fuel N + 1, sf, he, ?_⟩
    intro f n hf hn
    obtain ⟨m, rfl⟩ : ∃ m, n = m + 1 := ⟨n - 1, by omega⟩
    have h1 := hN f m (by omega) (by omega)
    simp [pipeOutputLoop, Scan_mono hs (show fuel ≤ f by omega), h1]

theorem pipeOutput_of_Yields (name : String) {r : Reader} {ls : List String}
    {e : Option GoError} (h : Yields (NewScanner r) ls e) :
    ∃ N, ∀ fuel, N ≤ fuel →
      pipeOutput fuel name r = some (ls.map (outputLine name) ++ [closingLine name e]) := by
  obtain ⟨N, sf, he, hN⟩ := pipeOutputLoop_of_Yields name h
  refine ⟨N, fun fuel hf => ?_⟩
  simp only [pipeOutput, hN fuel fuel hf hf]
  subst he
  cases hE : sf.Err <;> simp [closingLine]

/-! ## The scanner on a stream of bytes -/

theorem IndexByte_eq_none {d : List Char} {c : Char} (h : c ∉ d) : IndexByte d c = none := by
  induction d with
  | nil => rfl
  | cons b bs ih =>
    have hb : b ≠ c := fun e => h (by simp [e])
    have hbs : c ∉ bs := fun m => h (List.mem_cons_of_mem _ m)
    simp [IndexByte, hb, ih hbs]

theorem IndexByte_append {l : List Char} {c : Char} (h : c ∉ l) (rest : List Char) :
    IndexByte (l ++ c :: rest) c = some l.length := by
  induction l with
  | nil => simp [IndexByte]
  | cons b bs ih =>
    have hb : b ≠ c := fun e => h (by simp [e])
    have hbs : c ∉ bs := fun m => h (List.mem_cons_of_mem _ m)
    simp [IndexByte, hb, ih hbs]

/-- The split function never returns a token without advancing. -/
theorem ScanLines_token_advance (data : List Char) (atEOF : Bool) (t : List Char)
    (h : (ScanLines data atEOF).2 = some t) : 0 < (ScanLines data atEOF).1 := by
  unfold ScanLines at h ⊢
  split
  · rename_i h0
    simp [h0] at h
  · rename_i h0
    split
    · simp
    · split
      · rename_i hE
        have : data.length ≠ 0 := fun hz => h0 ⟨hE, hz⟩
        simp only
        omega
      · rename_i hi hE
        simp [hi, hE] at h

/-- The first occurrence of a byte splits a list in one way only. -/
theorem first_split_unique {c : Char} {l1 l2 r1 r2 : List Char} (h1 : c ∉ l1) (h2 : c ∉ l2)
    (h : l1 ++ c :: r1 = l2 ++ c :: r2) : l1 = l2 ∧ r1 = r2 := by
  induction l1 generalizing l2 with
  | nil =>
    cases l2 with
    | nil => simpa using h
    | cons b bs =>
      simp at h
      exact absurd h.1 (fun e => h2 (by simp [e]))
  | cons a as ih =>
    cases l2 with
    | nil =>
      simp at h
      exact absurd h.1 (fun e => h1 (by simp [e]))
    | cons b bs =>
      simp only [List.cons_append, List.cons.injEq] at h
      have := ih (fun m => h1 (List.mem_cons_of_mem _ m)) (fun m => h2 (List.mem_cons_of_mem _ m)) h.2
      exact ⟨by rw [h.1, this.1], this.2⟩

/-- A list without the byte `c` that starts `l ++ c :: rest` is a part of `l`. -/
theorem append_split_of_not_mem {c : Char} {d b l rest : List Char} (hd : c ∉ d)
    (h : d ++ b = l ++ c :: rest) : ∃ m, l = d ++ m ∧ b = m ++ c :: rest := by
  rcases List.append_eq_append_iff.1 h with ⟨m, h1, h2⟩ | ⟨m, h1, h2⟩
  · exact ⟨m, h1, h2⟩
  · cases m with
    | nil => exact ⟨[], by simpa using h1.symm, by simpa using h2.symm⟩
    | cons x xs =>
      simp only [List.cons_append, List.cons.injEq] at h2
      exact absurd (by rw [h1, h2.1]; simp) hd

theorem NewScanner_Inv {r : Reader} (h : ∀ c ∈ r.chunks, c ≠ []) : (NewScanner r).Inv :=
  ⟨rfl, rfl, by simp [NewScanner], by simp [NewScanner], h⟩

theorem Scan_token {s : Scanner} (herr : s.err = none) {l d : List Char}
    (hd : s.data = l ++ '\n' :: d) (hl : '\n' ∉ l) (fuel : Nat) :
    s.Scan (fuel + 1) = some (true,
      { s with start := s.start + (l.length + 1), data := d, token := dropCR l }) := by
  have h1 : s.tryToken = .inl (true,
      { s with start := s.start + (l.length + 1), data := d, token := dropCR l }) := by
    simp [Scanner.tryToken, herr, hd, ScanLines, IndexByte_append hl, Scanner.advance]
  simp [Scanner.Scan, h1]

theorem tryToken_noNewline {s : Scanner} (herr : s.err = none) (hd : '\n' ∉ s.data) :
    ∃ t, s.tryToken = .inr { s with token := t } := by
  by_cases h0 : 0 < s.data.length
  · refine ⟨[], ?_⟩
    simp [Scanner.tryToken, herr, h0, ScanLines, IndexByte_eq_none hd, Scanner.advance]
  · have h1 : s.tryToken = .inr s := by simp [Scanner.tryToken, herr, h0]
    exact ⟨s.token, h1⟩

theorem shift_eq (s : Scanner) (hfits : s.start + s.data.length ≤ s.bufLen) :
    ∃ st, s.shift = { s with start := st } ∧ st + s.data.length ≤ s.bufLen ∧
      (st + s.data.length = s.bufLen → st = 0) := by
  by_cases hshift : 0 < s.start ∧ (s.endPos = s.bufLen ∨ s.bufLen / 2 < s.start)
  · exact ⟨0, by simp [Scanner.shift, hshift], by omega, fun _ => rfl⟩
  · refine ⟨s.start, by simp [Scanner.shift, hshift], hfits, fun hfull => ?_⟩
    by_contra hne
    exact hshift ⟨by omega, Or.inl hfull⟩

theorem grow_tooLong {s : Scanner} (hmax : s.maxTokenSize = MaxScanTokenSize)
    (hfits : s.start + s.data.length ≤ s.bufLen) (hcap : s.bufLen ≤ MaxScanTokenSize)
    (hlen : MaxScanTokenSize ≤ s.data.length) :
    s.shift.grow = .inl (false, s.setErr .ErrTooLong) := by
  have h0 : s.start = 0 := by omega
  have h1 : s.data.length = s.bufLen := by omega
  have h2 : s.shift = s := by simp [Scanner.shift, h0]
  rw [h2]
  simp only [Scanner.grow, Scanner.endPos, h0, h1, hmax, zero_add, if_true]
  rw [if_pos (Or.inl (by omega))]

theorem grow_room {s : Scanner} (hmax : s.maxTokenSize = MaxScanTokenSize)
    (hfits : s.start + s.data.length ≤ s.bufLen) (hcap : s.bufLen ≤ MaxScanTokenSize)
    (hlen : s.data.length < MaxScanTokenSize) :
    ∃ b st, s.shift.grow = .inr { s with bufLen := b, start := st } ∧
      st + s.data.length < b ∧ b ≤ MaxScanTokenSize := by
  have hM : MaxScanTokenSize = 65536 := rfl
  have hI : maxInt / 2 = 4611686018427387903 := by decide
  obtain ⟨st, hs, hst, hz⟩ := shift_eq s hfits
  rw [hs]
  by_cases hfull : st + s.data.length = s.bufLen
  · have hno : ¬ (MaxScanTokenSize ≤ s.bufLen ∨ 4611686018427387903 < s.bufLen) := by omega
    refine ⟨min (if s.bufLen * 2 = 0 then startBufSize else s.bufLen * 2) MaxScanTokenSize, 0,
      ?_, ?_, Nat.min_le_right _ _⟩
    · simp only [Scanner.grow, Scanner.endPos, hfull, hmax, hI, hno, if_true, if_false]
    · have := hz hfull
      simp only [startBufSize]
      split <;> omega
  · refine ⟨s.bufLen, st, ?_, by omega, hcap⟩
    simp only [Scanner.grow, Scanner.endPos, hfull, if_false]

theorem readMore_chunk {s : Scanner} (k : Nat) (hch : s.r.chunks ≠ [])
    (hne : ∀ c ∈ s.r.chunks, c ≠ []) (hroom : s.start + s.data.length < s.bufLen) :
    ∃ p r1, s.readMore (k + 1) = { s with r := r1, data := s.data ++ p } ∧
      p ++ r1.bytes = s.r.bytes ∧ r1.final = s.r.final ∧ (∀ c ∈ r1.chunks, c ≠ []) ∧
      r1.bytes.length < s.r.bytes.length ∧ s.start + (s.data.length + p.length) ≤ s.bufLen := by
  obtain ⟨c, cs, hcs⟩ := List.exists_cons_of_ne_nil hch
  have hc : c ≠ [] := hne c (by simp [hcs])
  have hcl : 0 < c.length := List.length_pos.2 hc
  have hcs2 : ∀ x ∈ cs, x ≠ [] := fun x hx => hne x (by simp [hcs, hx])
  by_cases hle : c.length ≤ s.bufLen - s.endPos
  · refine ⟨c, { s.r with chunks := cs }, ?_, ?_, rfl, hcs2, ?_, ?_⟩
    · have hr : s.r.Read (s.bufLen - s.endPos) = (c, none, { s.r with chunks := cs }) := by
        simp [Reader.Read, hcs, hle]
      simp [Scanner.readMore, hr, Nat.not_lt.2 hle, hcl]
    · simp [Reader.bytes, hcs]
    · simp only [Reader.bytes, hcs, List.flatten_cons, List.length_append]
      omega
    · simp only [Scanner.endPos] at hle
      omega
  · have hpos : 0 < s.bufLen - s.endPos := by
      simp only [Scanner.endPos]
      omega
    have hdrop : c.drop (s.bufLen - s.endPos) ≠ [] := by
      intro h
      have := congrArg List.length h
      simp only [List.length_drop, List.length_nil] at this
      omega
    refine ⟨c.take (s.bufLen - s.endPos),
      { s.r with chunks := c.drop (s.bufLen - s.endPos) :: cs }, ?_, ?_, rfl, ?_, ?_, ?_⟩
    · have hr : s.r.Read (s.bufLen - s.endPos) = (c.take (s.bufLen - s.endPos), none,
          { s.r with chunks := c.drop (s.bufLen - s.endPos) :: cs }) := by
        simp [Reader.Read, hcs, hle]
      have hmin : min (s.bufLen - s.endPos) c.length = s.bufLen - s.endPos := by omega
      simp [Scanner.readMore, hr, hmin, hpos]
    · simp only [Reader.bytes, hcs, List.flatten_cons]
      rw [← List.append_assoc, List.take_append_drop]
    · intro x hx
      simp only [List.mem_cons] at hx
      rcases hx with rfl | hx
      · exact hdrop
      · exact hcs2 x hx
    · simp only [Reader.bytes, hcs, List.flatten_cons, List.length_append, List.length_drop]
      omega
    · simp only [Scanner.endPos, List.length_take] at hle ⊢
      omega

/-- One turn of the loop of `Scan` that finds no token and reads more data. -/
theorem Scan_read {s : Scanner} (hI : s.Inv) (hd : '\n' ∉ s.data)
    (hlen : s.data.length < MaxScanTokenSize) (hch : s.r.chunks ≠ []) :
    ∃ s1 : Scanner, (∀ fuel, s.Scan (fuel + 1) = s1.Scan fuel) ∧ s1.Inv ∧
      s1.pending = s.pending ∧ s1.r.final = s.r.final ∧
      s1.r.bytes.length < s.r.bytes.length := by
  obtain ⟨t, ht⟩ := tryToken_noNewline hI.err hd
  obtain ⟨b, st, hg, hroom, hb⟩ :=
    grow_room (s := { s with token := t }) hI.max hI.fits hI.cap hlen
  obtain ⟨p, r1, hr, hbytes, hfinal, hne, hless, hfit⟩ :=
    readMore_chunk (s := { s with token := t, bufLen := b, start := st })
      maxConsecutiveEmptyReads hch hI.chunks hroom
  refine ⟨{ s with r := r1, token := t, bufLen := b, start := st, data := s.data ++ p },
    fun fuel => ?_, ⟨hI.err, hI.max, ?_, hb, hne⟩, ?_, hfinal, hless⟩
  · have he : ¬ s.err ≠ none := by simp [hI.err]
    dsimp only at hg hr
    rw [Scanner.Scan, ht]
    dsimp only
    rw [if_neg he, hg]
    dsimp only
    rw [hr]
  · simpa using hfit
  · simp only [Scanner.pending, List.append_assoc]
    rw [hbytes]

theorem chunks_ne_nil_of_bytes {r : Reader} (h : r.bytes ≠ []) : r.chunks ≠ [] := by
  intro hc
  exact h (by simp [Reader.bytes, hc])

/-- A line that does not fit into the largest buffer stops the scanner with
`ErrTooLong`. -/
theorem Scan_tooLong (n : Nat) : ∀ (s : Scanner), s.r.bytes.length = n → s.Inv →
    ∀ long rest : List Char, s.pending = long ++ rest → '\n' ∉ long →
      MaxScanTokenSize ≤ long.length →
      ∃ fuel s1, s.Scan fuel = some (false, s1) ∧ s1.Err = some .ErrTooLong := by
  induction n using Nat.strong_induction_on with
  | _ n ih =>
    intro s hn hI long rest hp hl hlong
    have hdat : '\n' ∉ s.data ∧ (s.data.length < MaxScanTokenSize → s.r.chunks ≠ []) := by
      have hfit := hI.fits
      have hcap := hI.cap
      rcases List.append_eq_append_iff.1 hp with ⟨m, h1, h2⟩ | ⟨m, h1, h2⟩
      · refine ⟨fun hm => hl (by rw [h1]; exact List.mem_append_left _ hm), fun hlt => ?_⟩
        apply chunks_ne_nil_of_bytes
        intro hb
        have hlen := congrArg List.length h1
        have hlen2 := congrArg List.length h2
        simp only [List.length_append, hb, List.length_nil] at hlen hlen2
        omega
      · have hlen := congrArg List.length h1
        simp only [List.length_append] at hlen
        have hm : m = [] := List.length_eq_zero.1 (by omega)
        subst hm
        simp only [List.append_nil] at h1
        exact ⟨by rw [h1]; exact hl, fun hlt => by omega⟩
    by_cases hlen : MaxScanTokenSize ≤ s.data.length
    · obtain ⟨t, ht⟩ := tryToken_noNewline hI.err hdat.1
      have hg := grow_tooLong (s := { s with token := t }) hI.max hI.fits hI.cap hlen
      have he : ¬ s.err ≠ none := by simp [hI.err]
      refine ⟨1, ({ s with token := t } : Scanner).setErr .ErrTooLong, ?_, ?_⟩
      · rw [Scanner.Scan, ht]
        dsimp only
        rw [if_neg he, hg]
      · simp [Scanner.setErr, Scanner.Err, hI.err]
    · obtain ⟨s1, hstep, hI1, hp1, _, hless⟩ :=
        Scan_read hI hdat.1 (by omega) (hdat.2 (by omega))
      obtain ⟨fuel, s2, hs2, he2⟩ :=
        ih _ (by omega) s1 rfl hI1 long rest (by rw [hp1, hp]) hl hlong
      exact ⟨fuel + 1, s2, by rw [hstep]; exact hs2, he2⟩

/-- A line within the limit, ended by a newline, is the next token. -/
theorem Scan_line (n : Nat) : ∀ (s : Scanner), s.r.bytes.length = n → s.Inv →
    ∀ l rest : List Char, s.pending = l ++ '\n' :: rest → '\n' ∉ l →
      l.length < MaxScanTokenSize →
      ∃ fuel s1, s.Scan fuel = some (true, s1) ∧ s1.token = dropCR l ∧ s1.Inv ∧
        s1.pending = rest ∧ s1.r.final = s.r.final := by
  induction n using Nat.strong_induction_on with
  | _ n ih =>
    intro s hn hI l rest hp hl hlen
    by_cases hmem : '\n' ∈ s.data
    · obtain ⟨l1, d, hdata, hl1⟩ := List.eq_append_cons_of_mem hmem
      have hp2 : l1 ++ '\n' :: (d ++ s.r.bytes) = l ++ '\n' :: rest := by
        rw [← hp, Scanner.pending, hdata]
        simp
      obtain ⟨h1, h2⟩ := first_split_unique hl1 hl hp2
      subst h1
      refine ⟨1, _, Scan_token hI.err hdata hl1 0, rfl, ⟨hI.err, hI.max, ?_, hI.cap, hI.chunks⟩,
        h2, rfl⟩
      have hfit := hI.fits
      have hlen2 := congrArg List.length hdata
      simp only [List.length_append, List.length_cons] at hlen2
      dsimp only
      omega
    · obtain ⟨m, h1, h2⟩ := append_split_of_not_mem hmem hp
      have hlen2 := congrArg List.length h1
      simp only [List.length_append] at hlen2
      have hch : s.r.chunks ≠ [] := by
        apply chunks_ne_nil_of_bytes
        rw [h2]
        simp
      obtain ⟨s1, hstep, hI1, hp1, hf1, hless⟩ := Scan_read hI hmem (by omega) hch
      obtain ⟨fuel, s2, hs2, ht2, hI2, hp2, hf2⟩ :=
        ih _ (by omega) s1 rfl hI1 l rest (by rw [hp1, hp]) hl hlen
      exact ⟨fuel + 1, s2, by rw [hstep]; exact hs2, ht2, hI2, hp2, by rw [hf2, hf1]⟩

/-- Lines within the limit are yielded one by one; the first line beyond the
limit stops the scanner with `ErrTooLong`, whatever follows it. -/
theorem Yields_tooLong (ls : List (List Char)) : ∀ (s : Scanner), s.Inv →
    ∀ long rest : List Char, s.pending = joinLines ls ++ (long ++ rest) →
      (∀ l ∈ ls, '\n' ∉ l ∧ l.length < MaxScanTokenSize) → '\n' ∉ long →
      MaxScanTokenSize ≤ long.length →
      Yields s (ls.map (fun l => String.mk (dropCR l))) (some .ErrTooLong) := by
  induction ls with
  | nil =>
    intro s hI long rest hp _ hl hlong
    obtain ⟨fuel, s1, hs, he⟩ :=
      Scan_tooLong _ s rfl hI long rest (by simpa [joinLines] using hp) hl hlong
    rw [← he]
    exact Yields.stop fuel s s1 hs
  | cons l ls ih =>
    intro s hI long rest hp hls hl hlong
    have hl1 := hls l (by simp)
    obtain ⟨fuel, s1, hs, ht, hI1, hp1, _⟩ :=
      Scan_line _ s rfl hI l (joinLines ls ++ (long ++ rest))
        (by rw [hp]; simp [joinLines]) hl1.1 hl1.2
    have hy := ih s1 hI1 long rest hp1 (fun x hx => hls x (by simp [hx])) hl hlong
    have hT : s1.Text = String.mk (dropCR l) := by rw [Scanner.Text, ht]
    rw [List.map_cons, ← hT]
    exact Yields.line fuel s s1 _ _ hs hy

theorem Yields_of_scanAll {fuel n : Nat} {s : Scanner} {ls : List String}
    {e : Option GoError} (h : scanAll fuel n s = some (ls, e)) : Yields s ls e := by
  induction n generalizing s ls e with
  | zero => simp [scanAll] at h
  | succ n ih =>
    simp only [scanAll] at h
    cases hs : s.Scan fuel with
    | none => simp [hs] at h
    | some res =>
      obtain ⟨b, s1⟩ := res
      cases b with
      | false =>
        simp only [hs, Option.some.injEq, Prod.mk.injEq] at h
        rw [← h.1, ← h.2]
        exact Yields.stop fuel s s1 hs
      | true =>
        simp only [hs] at h
        cases hr : scanAll fuel n s1 with
        | none => simp [hr] at h
        | some res2 =>
          obtain ⟨ls2, e2⟩ := res2
          simp only [hr, Option.some.injEq, Prod.mk.injEq] at h
          rw [← h.1, ← h.2]
          exact Yields.line fuel s s1 ls2 e2 hs (ih hr)

/-! ### The end of the stream -/

theorem Yields_of_step {s s1 : Scanner} {ls : List String} {e : Option GoError}
    (hstep : ∀ fuel, s.Scan (fuel + 1) = s1.Scan fuel) (h : Yields s1 ls e) : Yields s ls e := by
  cases h with
  | stop fuel _ s2 hs => exact Yields.stop (fuel + 1) s s2 (by rw [hstep]; exact hs)
  | line fuel _ s2 ls2 _ hs hy => exact Yields.line (fuel + 1) s s2 ls2 e (by rw [hstep]; exact hs) hy

/-- Once the reader has returned an error and the buffer is empty, `Scan`
returns `false` and keeps the error. -/
theorem Scan_ended {s : Scanner} {e : GoError} (herr : s.err = some e) (hd : s.data = [])
    (fuel : Nat) : ∃ s1, s.Scan (fuel + 1) = some (false, s1) ∧ s1.err = some e := by
  have h1 : s.tryToken = .inr { s with start := s.start + 0, data := [], token := [] } := by
    simp [Scanner.tryToken, herr, hd, ScanLines, Scanner.advance]
  refine ⟨{ s with start := 0, data := [], token := [] }, ?_, herr⟩
  rw [Scanner.Scan, h1]
  simp [herr]

/-- When the reader has returned an error, what is left in the buffer is the
last token. -/
theorem Scan_lastLine {s : Scanner} {e : GoError} (herr : s.err = some e) (hd : s.data ≠ [])
    (hn : '\n' ∉ s.data) (fuel : Nat) :
    s.Scan (fuel + 1) = some (true,
      { s with start := s.start + s.data.length, data := [], token := dropCR s.data }) := by
  have hpos : 0 < s.data.length := List.length_pos.2 hd
  have hne : s.data.length ≠ 0 := by omega
  have h1 : s.tryToken = .inl (true,
      { s with start := s.start + s.data.length, data := [], token := dropCR s.data }) := by
    simp [Scanner.tryToken, herr, ScanLines, IndexByte_eq_none hn, Scanner.advance, hne]
  rw [Scanner.Scan, h1]

/-- One turn of the loop of `Scan` in which the read finds the stream ended. -/
theorem Scan_readEnd {s : Scanner} (hI : s.Inv) (hd : '\n' ∉ s.data)
    (hlen : s.data.length < MaxScanTokenSize) (hch : s.r.chunks = []) :
    ∃ s1 : Scanner, (∀ fuel, s.Scan (fuel + 1) = s1.Scan fuel) ∧ s1.err = some s.r.final ∧
      s1.data = s.data := by
  obtain ⟨t, ht⟩ := tryToken_noNewline hI.err hd
  obtain ⟨b, st, hg, hroom, hb⟩ :=
    grow_room (s := { s with token := t }) hI.max hI.fits hI.cap hlen
  have hr : Scanner.readMore (maxConsecutiveEmptyReads + 1)
      { s with token := t, bufLen := b, start := st } =
      { s with token := t, bufLen := b, start := st, err := some s.r.final } := by
    have hread : ∀ k, s.r.Read k = ([], some s.r.final, s.r) := by
      intro k
      simp [Reader.Read, hch]
    simp [Scanner.readMore, hread, Scanner.setErr, hI.err]
  refine ⟨{ s with token := t, bufLen := b, start := st, err := some s.r.final },
    fun fuel => ?_, rfl, rfl⟩
  have he : ¬ s.err ≠ none := by simp [hI.err]
  dsimp only at hg
  rw [Scanner.Scan, ht]
  dsimp only
  rw [if_neg he, hg]
  dsimp only
  rw [hr]

/-- A stream that ends after `tail`, which has no newline and is within the
limit, yields `tail` when it is not empty, and then the error of the reader. -/
theorem Yields_tail (n : Nat) : ∀ (s : Scanner), s.r.bytes.length = n → s.Inv →
    ∀ tail : List Char, s.pending = tail → '\n' ∉ tail → tail.length < MaxScanTokenSize →
      Yields s (lastLine tail) (errAfter s.r.final) := by
  induction n using Nat.strong_induction_on with
  | _ n ih =>
    intro s hn hI tail hp hnl hlen
    have hdat : '\n' ∉ s.data := fun hm => hnl (by rw [← hp]; exact List.mem_append_left _ hm)
    have hdlen : s.data.length < MaxScanTokenSize := by
      have := congrArg List.length hp
      simp only [Scanner.pending, List.length_append] at this
      omega
    by_cases hch : s.r.chunks = []
    · obtain ⟨s1, hstep, he1, hd1⟩ := Scan_readEnd hI hdat hdlen hch
      have htail : s.data = tail := by
        rw [← hp, Scanner.pending, Reader.bytes, hch]
        simp
      apply Yields_of_step hstep
      have hErr : ∀ s2 : Scanner, s2.err = some s.r.final → s2.Err = errAfter s.r.final := by
        intro s2 h2
        simp only [Scanner.Err, errAfter, h2, Option.some.injEq]
      by_cases ht : tail = []
      · obtain ⟨s2, hs2, he2⟩ := Scan_ended he1 (by rw [hd1, htail, ht]) 0
        rw [lastLine, if_pos ht, ← hErr s2 he2]
        exact Yields.stop 1 s1 s2 hs2
      · have hs2 := Scan_lastLine he1 (by rw [hd1, htail]; exact ht) (by rw [hd1]; exact hdat) 0
        obtain ⟨s3, hs3, he3⟩ := Scan_ended
          (s := { s1 with start := s1.start + s1.data.length, data := [],
                          token := dropCR s1.data }) he1 rfl 0
        have hy := Yields.line 1 s1 _ [] _ hs2 (Yields.stop 1 _ s3 hs3)
        rw [hErr s3 he3] at hy
        rw [lastLine, if_neg ht]
        simpa [Scanner.Text, hd1, htail] using hy
    · obtain ⟨s1, hstep, hI1, hp1, hf1, hless⟩ := Scan_read hI hdat hdlen hch
      have hy := ih _ (by omega) s1 rfl hI1 tail (by rw [hp1, hp]) hnl hlen
      rw [hf1] at hy
      exact Yields_of_step hstep hy

/-- What a stream of bytes yields when no line is beyond the limit: every line
that ends in a newline, without the newline and one carriage return before it,
then what follows the last newline, and the error of the reader unless it is
`io.EOF`. -/
theorem Yields_of_bytes (ls : List (List Char)) : ∀ (s : Scanner), s.Inv →
    ∀ tail : List Char, s.pending = joinLines ls ++ tail →
      (∀ l ∈ ls, '\n' ∉ l ∧ l.length < MaxScanTokenSize) → '\n' ∉ tail →
      tail.length < MaxScanTokenSize →
      Yields s (ls.map (fun l => String.mk (dropCR l)) ++ lastLine tail)
        (errAfter s.r.final) := by
  induction ls with
  | nil =>
    intro s hI tail hp _ hnl hlen
    exact Yields_tail _ s rfl hI tail (by simpa [joinLines] using hp) hnl hlen
  | cons l ls ih =>
    intro s hI tail hp hls hnl hlen
    have hl1 := hls l (by simp)
    obtain ⟨fuel, s1, hs, ht, hI1, hp1, hf1⟩ :=
      Scan_line _ s rfl hI l (joinLines ls ++ tail)
        (by rw [hp]; simp [joinLines]) hl1.1 hl1.2
    have hy := ih s1 hI1 tail hp1 (fun x hx => hls x (by simp [hx])) hnl hlen
    have hT : s1.Text = String.mk (dropCR l) := by rw [Scanner.Text, ht]
    rw [List.map_cons, List.cons_append, ← hT, ← hf1]
    exact Yields.line fuel s s1 _ _ hs hy

/-- The relay on a stream of bytes in which no line is beyond the limit and every
read returns data or an error: it writes every line, tagged, and then its
closing line. -/
theorem pipeOutput_of_bytes (name : String) (r : Reader) (ls : List (List Char))
    (tail : List Char) (hread : ∀ c ∈ r.chunks, c ≠ [])
    (hbytes : r.bytes = joinLines ls ++ tail)
    (hls : ∀ l ∈ ls, '\n' ∉ l ∧ l.length < MaxScanTokenSize)
    (hnl : '\n' ∉ tail) (hlen : tail.length < MaxScanTokenSize) :
    ∃ N, ∀ fuel, N ≤ fuel →
      pipeOutput fuel name r =
        some ((ls.map (fun l => String.mk (dropCR l)) ++ lastLine tail).map (outputLine name) ++
          [closingLine name (errAfter r.final)]) :=
  pipeOutput_of_Yields name
    (Yields_of_bytes ls (NewScanner r) (NewScanner_Inv hread) tail
      (by simpa [Scanner.pending, NewScanner] using hbytes) hls hnl hlen)

/-! ## The restart loop and `main`: auxiliary facts -/

theorem runProcess_started (w : World) (proc : Process) (it : Iteration)
    (rest : List Iteration) (h : it.started) :
    runProcess w proc (it :: rest) = turnTrace w proc it ++ runProcess w proc rest := by
  obtain ⟨h1, h2, h3⟩ := h
  simp [runProcess, turnTrace, h1, h2, h3]

theorem runProcess_append (w : World) (proc : Process) (done rest : List Iteration)
    (h : ∀ it ∈ done, it.started) :
    runProcess w proc (done ++ rest) = runProcess w proc done ++ runProcess w proc rest := by
  induction done with
  | nil => simp [runProcess]
  | cons it done ih =>
    have hit := h it (by simp)
    have hd : ∀ x ∈ done, x.started := fun x hx => h x (by simp [hx])
    rw [List.cons_append, runProcess_started w proc it _ hit,
      runProcess_started w proc it _ hit, ih hd, List.append_assoc]

/-- The step machine, run from a state in the phase `Starting`, makes the calls
of `runProcess`. -/
theorem runSteps_eq_runProcess (w : World) (proc : Process) (its : List Iteration) :
    ∀ s : LoopState, s.phase = .Starting → runSteps w proc its s = runProcess w proc its := by
  induction its with
  | nil => intro s _; rfl
  | cons it rest ih =>
    intro s hs
    cases h1 : it.stdoutPipe with
    | some e => simp [runSteps, runProcess, step, hs, h1]
    | none =>
      cases h2 : it.stderrPipe with
      | some e => simp [runSteps, runProcess, step, hs, h1, h2]
      | none =>
        cases h3 : it.start with
        | some e => simp [runSteps, runProcess, step, hs, h1, h2, h3]
        | none =>
          have := ih { phase := .Starting, alive := s.alive, waitErr := it.wait } rfl
          simp [runSteps, runProcess, step, hs, h1, h2, h3, this]

theorem loopsStarted_map_append (ps : List Process) (rest : List Action) :
    loopsStarted (ps.map .goRunProcess ++ rest) = ps ++ loopsStarted rest := by
  induction ps with
  | nil => rfl
  | cons p ps ih => simp [loopsStarted, ih]

theorem startCalls_append (a b : List Action) :
    startCalls (a ++ b) = startCalls a + startCalls b := by
  induction a with
  | nil => simp [startCalls]
  | cons x xs ih =>
    cases x <;> simp [startCalls, ih]
    omega

theorem waitReturns_append (a b : List Action) :
    waitReturns (a ++ b) = waitReturns a + waitReturns b := by
  induction a with
  | nil => simp [waitReturns]
  | cons x xs ih =>
    cases x <;> simp [waitReturns, ih]
    omega

/-- In a reachable state the children started and not yet waited for are those
counted by `alive`: one in the phase `Running`, none in the other phases. -/
theorem reachable_alive (w : World) (proc : Process) (tr : List Action) (s : LoopState)
    (h : ReachableBy w proc tr s) :
    s.alive = (if s.phase = .Running then 1 else 0) ∧
      startCalls tr = waitReturns tr + s.alive := by
  induction h with
  | init => exact ⟨rfl, rfl⟩
  | step it tr s s1 acts _ hstep ih =>
    obtain ⟨ih1, ih2⟩ := ih
    rw [startCalls_append, waitReturns_append]
    unfold step at hstep
    split at hstep
    · rename_i hp
      simp only [hp] at ih1
      split at hstep
      · exact absurd hstep (by simp)
      · split at hstep
        · exact absurd hstep (by simp)
        · split at hstep
          · exact absurd hstep (by simp)
          · simp only [StepResult.next.injEq] at hstep
            rw [← hstep.1, ← hstep.2]
            simp only [startCalls, waitReturns]
            simp at ih1
            simp
            omega
    · rename_i hp
      simp only [hp] at ih1
      simp only [StepResult.next.injEq] at hstep
      rw [← hstep.1, ← hstep.2]
      simp only [startCalls, waitReturns]
      simp at ih1
      simp
      omega
    · rename_i hp
      simp only [hp] at ih1
      simp only [StepResult.next.injEq] at hstep
      rw [← hstep.1, ← hstep.2]
      simp only [startCalls, waitReturns]
      simp at ih1
      simp
      omega
    · rename_i hp
      simp only [hp] at ih1
      simp only [StepResult.next.injEq] at hstep
      rw [← hstep.1, ← hstep.2]
      simp only [startCalls, waitReturns]
      simp at ih1
      simp
      omega

/-- The first element of a list that is split around an element `m`. -/
theorem split_head {pre post xs : List Action} {m x : Action}
    (h : x :: xs = pre ++ m :: post) :
    (pre = [] ∧ x = m ∧ xs = post) ∨ ∃ pre1, pre = x :: pre1 ∧ xs = pre1 ++ m :: post := by
  cases pre with
  | nil =>
    simp only [List.nil_append, List.cons.injEq] at h
    exact Or.inl ⟨rfl, h.1, h.2⟩
  | cons y ys =>
    simp only [List.cons_append, List.cons.injEq] at h
    exact Or.inr ⟨ys, by rw [h.1], h.2⟩

/-- In the trace of `runProcess`, when `cmd.Start()` is called every child
started before has been waited for, and unless it is the first call of the
trace the three calls before it are `cmd.Wait()`, the print of the outcome and
`time.Sleep` of five seconds. -/
theorem runProcess_cmdStart_split (w : World) (proc : Process) :
    ∀ (its : List Iteration) (pre : List Action) (c : String) (a : List String) (d : String)
      (post : List Action), runProcess w proc its = pre ++ .cmdStart c a d :: post →
      startCalls pre = waitReturns pre ∧
      (pre = [] ∨ ∃ pre1 e,
        pre = pre1 ++ [.cmdWait, .print (exitLine proc e), .sleep 5000000000]) := by
  intro its
  induction its with
  | nil =>
    intro pre c a d post h
    simp [runProcess] at h
  | cons it rest ih =>
    intro pre c a d post g0
    cases h1 : it.stdoutPipe with
    | some e =>
      simp only [runProcess, h1, logFatal] at g0
      rcases split_head g0 with ⟨_, hx, _⟩ | ⟨p1, hp, g1⟩
      · cases hx
      subst hp
      rcases split_head g1 with ⟨_, hx, _⟩ | ⟨p2, hp, g2⟩
      · cases hx
      subst hp
      simp at g2
    | none =>
      cases h2 : it.stderrPipe with
      | some e =>
        simp only [runProcess, h1, h2, logFatal] at g0
        rcases split_head g0 with ⟨_, hx, _⟩ | ⟨p1, hp, g1⟩
        · cases hx
        subst hp
        rcases split_head g1 with ⟨_, hx, _⟩ | ⟨p2, hp, g2⟩
        · cases hx
        subst hp
        simp at g2
      | none =>
        cases h3 : it.start with
        | some e =>
          simp only [runProcess, h1, h2, h3, logFatal] at g0
          rcases split_head g0 with ⟨hp, _, _⟩ | ⟨p1, hp, g1⟩
          · subst hp
            exact ⟨rfl, Or.inl rfl⟩
          subst hp
          rcases split_head g1 with ⟨_, hx, _⟩ | ⟨p2, hp, g2⟩
          · cases hx
          subst hp
          rcases split_head g2 with ⟨_, hx, _⟩ | ⟨p3, hp, g3⟩
          · cases hx
          subst hp
          simp at g3
        | none =>
          simp only [runProcess, h1, h2, h3, List.cons_append, List.nil_append] at g0
          rcases split_head g0 with ⟨hp, _, _⟩ | ⟨p1, hp, g1⟩
          · subst hp
            exact ⟨rfl, Or.inl rfl⟩
          subst hp
          rcases split_head g1 with ⟨_, hx, _⟩ | ⟨p2, hp, g2⟩
          · cases hx
          subst hp
          rcases split_head g2 with ⟨_, hx, _⟩ | ⟨p3, hp, g3⟩
          · cases hx
          subst hp
          rcases split_head g3 with ⟨_, hx, _⟩ | ⟨p4, hp, g4⟩
          · cases hx
          subst hp
          rcases split_head g4 with ⟨_, hx, _⟩ | ⟨p5, hp, g5⟩
          · cases hx
          subst hp
          rcases split_head g5 with ⟨_, hx, _⟩ | ⟨p6, hp, g6⟩
          · cases hx
          subst hp
          rcases split_head g6 with ⟨_, hx, _⟩ | ⟨p7, hp, g7⟩
          · cases hx
          subst hp
          obtain ⟨hbal, hlast⟩ := ih p7 c a d post g7
          refine ⟨?_, Or.inr ?_⟩
          · simp only [startCalls, waitReturns]
            omega
          · rcases hlast with hnil | ⟨pre1, e, hpre⟩
            · subst hnil
              exact ⟨[.cmdStart proc.Command proc.Args (w.Abs proc.WorkingDir).1,
                .goPipeOutput proc.Name .stdout, .goPipeOutput proc.Name .stderr,
                .print ("Started process: " ++ proc.Name ++ "\n")], it.wait, rfl⟩
            · subst hpre
              exact ⟨.cmdStart proc.Command proc.Args (w.Abs proc.WorkingDir).1 ::
                .goPipeOutput proc.Name .stdout :: .goPipeOutput proc.Name .stderr ::
                .print ("Started process: " ++ proc.Name ++ "\n") :: .cmdWait ::
                .print (exitLine proc it.wait) :: .sleep (5 * Second) :: pre1, e, rfl⟩

/-- At every point of the trace of `runProcess` at most one child has been
started and not yet waited for. -/
theorem runProcess_take_alive (w : World) (proc : Process) :
    ∀ (its : List Iteration) (n : Nat),
      waitReturns ((runProcess w proc its).take n) ≤ startCalls ((runProcess w proc its).take n) ∧
      startCalls ((runProcess w proc its).take n) ≤
        waitReturns ((runProcess w proc its).take n) + 1 := by
  intro its
  induction its with
  | nil =>
    intro n
    simp [runProcess, startCalls, waitReturns]
  | cons it rest ih =>
    intro n
    cases h1 : it.stdoutPipe with
    | some e =>
      simp only [runProcess, h1, logFatal]
      rcases n with _ | _ | n <;> simp [startCalls, waitReturns]
    | none =>
      cases h2 : it.stderrPipe with
      | some e =>
        simp only [runProcess, h1, h2, logFatal]
        rcases n with _ | _ | n <;> simp [startCalls, waitReturns]
      | none =>
        cases h3 : it.start with
        | some e =>
          simp only [runProcess, h1, h2, h3, logFatal]
          rcases n with _ | _ | _ | n <;> simp [startCalls, waitReturns]
        | none =>
          simp only [runProcess, h1, h2, h3, List.cons_append, List.nil_append]
          rcases n with _ | _ | _ | _ | _ | _ | _ | n
          all_goals simp only [List.take, startCalls, waitReturns]
          all_goals try omega
          have := ih n
          omega

/-! ## The relay: claims -/

/-- Claim C1.  Whatever the tag `name`, if the stream yields the lines `ls` before
`Scan` returns `false` (with or without an error), then `pipeOutput` returns, and
the first `ls.length` strings it has written are `[name] l` with a newline, for
each line `l` of `ls`, in the order of `ls`. -/
theorem pipeOutput_forwards_lines (name : String) (r : Reader) (ls : List String)
    (e : Option GoError) (h : Yields (NewScanner r) ls e) :
    ∃ N out, (∀ fuel, N ≤ fuel → pipeOutput fuel name r = some out) ∧
      out.take ls.length = ls.map (fun l => "[" ++ name ++ "] " ++ l ++ "\n") := by
  obtain ⟨N, hN⟩ := pipeOutput_of_Yields name h
  refine ⟨N, _, hN, ?_⟩
  have hlen : (ls.map (outputLine name)).length = ls.length := by simp
  rw [← hlen, List.take_left]
  rfl

theorem pipeOutput_forwards_lines_witness :
    Yields (NewScanner sampleReader) ["x", "y"] none ∧
    ∃ N out, (∀ fuel, N ≤ fuel → pipeOutput fuel "a" sampleReader = some out) ∧
      out.take 2 = ["[a] x\n", "[a] y\n"] :=
  have hy : Yields (NewScanner sampleReader) ["x", "y"] none :=
    Yields_of_scanAll (by decide : scanAll 4 4 (NewScanner sampleReader) = some (["x", "y"], none))
  ⟨hy, pipeOutput_forwards_lines "a" sampleReader ["x", "y"] none hy⟩

/-- Claim C2, at the input where the code departs from it: the stream yields the
line `x` and reaches a clean end, and `pipeOutput` writes `[a] x` and then
`[a] Process completed with no output.`. -/
theorem pipeOutput_no_output_after_line :
    Yields (NewScanner { chunks := ["x\n".toList], final := .EOF }) ["x"] none ∧
    pipeOutput 3 "a" { chunks := ["x\n".toList], final := .EOF } =
      some ["[a] x\n", "[a] Process completed with no output.\n"] :=
  ⟨Yields_of_scanAll (by decide :
      scanAll 3 3 (NewScanner { chunks := ["x\n".toList], final := .EOF }) = some (["x"], none)),
    by decide⟩

/-- Claim C3.  Whatever the tag `name`, if the stream reaches a clean end without
having yielded a line, then `pipeOutput` returns and all it has written is the
one line `[name] Process completed with no output.`. -/
theorem pipeOutput_empty_stream (name : String) (r : Reader)
    (h : Yields (NewScanner r) [] none) :
    ∃ N, ∀ fuel, N ≤ fuel →
      pipeOutput fuel name r = some ["[" ++ name ++ "] Process completed with no output.\n"] := by
  obtain ⟨N, hN⟩ := pipeOutput_of_Yields name h
  exact ⟨N, hN⟩

theorem pipeOutput_empty_stream_witness :
    Yields (NewScanner emptyReader) [] none ∧
    ∃ N, ∀ fuel, N ≤ fuel →
      pipeOutput fuel "a" emptyReader = some ["[" ++ "a" ++ "] Process completed with no output.\n"] :=
  have hy : Yields (NewScanner emptyReader) [] none :=
    Yields_of_scanAll (by decide : scanAll 2 1 (NewScanner emptyReader) = some ([], none))
  ⟨hy, pipeOutput_empty_stream "a" emptyReader hy⟩

/-- Claim C4.  Whatever the tag `name`, if the stream yields the lines `ls` and
then reading fails with the error `e`, so that `Scan` returns `false` and
`Err()` returns `e`, then `pipeOutput` returns and what it has written is the
lines `[name] l` for `l` in `ls`, in order, followed by the one line
`Error reading output from name: e`, and nothing else. -/
theorem pipeOutput_read_error (name : String) (r : Reader) (ls : List String) (e : GoError)
    (h : Yields (NewScanner r) ls (some e)) :
    ∃ N, ∀ fuel, N ≤ fuel →
      pipeOutput fuel name r =
        some (ls.map (fun l => "[" ++ name ++ "] " ++ l ++ "\n") ++
          ["Error reading output from " ++ name ++ ": " ++ e.Error ++ "\n"]) := by
  obtain ⟨N, hN⟩ := pipeOutput_of_Yields name h
  exact ⟨N, hN⟩

theorem pipeOutput_read_error_witness :
    Yields (NewScanner brokenReader) ["x"] (some (.other "read |0: file already closed")) ∧
    ∃ N, ∀ fuel, N ≤ fuel →
      pipeOutput fuel "a" brokenReader =
        some (["x"].map (fun l => "[" ++ "a" ++ "] " ++ l ++ "\n") ++
          ["Error reading output from " ++ "a" ++ ": " ++
            (GoError.other "read |0: file already closed").Error ++ "\n"]) :=
  have hy : Yields (NewScanner brokenReader) ["x"]
      (some (.other "read |0: file already closed")) :=
    Yields_of_scanAll (by decide : scanAll 3 3 (NewScanner brokenReader) =
      some (["x"], some (.other "read |0: file already closed")))
  ⟨hy, pipeOutput_read_error "a" brokenReader ["x"] _ hy⟩

/-- Claim C10.  The scanner of `pipeOutput` has the token limit `MaxScanTokenSize`
(64 KiB).  Take a stream in which every read returns data or an error, and whose
bytes are the lines `ls`, each within the limit and ended by a newline, followed
by `long`, at least `MaxScanTokenSize` bytes without a newline, followed by
anything (`rest`), whatever the stream does afterwards (`r.final`).  Then
`pipeOutput` returns, having written the lines of `ls`, tagged, and then the one
line `Error reading output from name: e` for `e` the error `ErrTooLong` of
`bufio`, whose text is `bufio.Scanner: token too long`: neither
`long` nor anything of `rest` is forwarded. -/
theorem pipeOutput_token_too_long (name : String) (r : Reader) (ls : List (List Char))
    (long rest : List Char) (hread : ∀ c ∈ r.chunks, c ≠ [])
    (hbytes : r.bytes = joinLines ls ++ (long ++ rest))
    (hls : ∀ l ∈ ls, '\n' ∉ l ∧ l.length < MaxScanTokenSize)
    (hnl : '\n' ∉ long) (hlong : MaxScanTokenSize ≤ long.length) :
    (NewScanner r).maxTokenSize = 64 * 1024 ∧
    ∃ N, ∀ fuel, N ≤ fuel →
      pipeOutput fuel name r =
        some (ls.map (fun l => "[" ++ name ++ "] " ++ String.mk (dropCR l) ++ "\n") ++
          ["Error reading output from " ++ name ++ ": " ++ GoError.ErrTooLong.Error ++ "\n"]) := by
  have hy := Yields_tooLong ls (NewScanner r) (NewScanner_Inv hread) long rest
    (by simpa [Scanner.pending, NewScanner] using hbytes) hls hnl hlong
  obtain ⟨N, hN⟩ := pipeOutput_of_Yields name hy
  refine ⟨rfl, N, fun fuel hf => ?_⟩
  rw [hN fuel hf, List.map_map]
  rfl

theorem longLine_length : longLine.length = 65536 := List.length_replicate _ _

theorem longReader_bytes (long : List Char) :
    Reader.bytes { chunks := ["ab\n".toList, long, "\ncd\n".toList], final := .EOF } =
      joinLines ["ab".toList] ++ (long ++ "\ncd\n".toList) := by
  simp [Reader.bytes, joinLines]

theorem pipeOutput_token_too_long_witness :
    (NewScanner longReader).maxTokenSize = 64 * 1024 ∧
    ∃ N, ∀ fuel, N ≤ fuel →
      pipeOutput fuel "a" longReader =
        some (["ab".toList].map (fun l => "[" ++ "a" ++ "] " ++ String.mk (dropCR l) ++ "\n") ++
          ["Error reading output from " ++ "a" ++ ": " ++ GoError.ErrTooLong.Error ++ "\n"]) :=
  pipeOutput_token_too_long "a" longReader ["ab".toList] longLine "\ncd\n".toList
    (by
      intro c hc
      have hc2 : c = "ab\n".toList ∨ c = longLine ∨ c = "\ncd\n".toList := by
        simpa [longReader] using hc
      rcases hc2 with rfl | rfl | rfl
      · decide
      · intro h
        have := congrArg List.length h
        rw [longLine_length] at this
        exact absurd this (by decide)
      · decide)
    (longReader_bytes longLine)
    (by
      intro l hl
      have : l = "ab".toList := by simpa using hl
      subst this
      exact ⟨by decide, by decide⟩)
    (fun h => absurd (List.eq_of_mem_replicate h) (by decide))
    (by rw [longLine_length]; decide)

/-! ## The restart loop: claims -/

/-- Claim C5.  Whatever the specification, if in some turn of the loop of
`runProcess`, after any number of turns in which the child was started, the call
`cmd.Start()` fails with `e`, then the trace of `runProcess` ends there: after
the call come the log line `Failed to start process <name>: <e>` and
`os.Exit(1)`, and nothing else.  That turn starts no relay, prints no
`Started process` line and does not sleep, and no later turn is run, whatever
the operating system would have answered (`rest`). -/
theorem runProcess_start_failure (w : World) (proc : Process) (done rest : List Iteration)
    (it : Iteration) (e : GoError) (hdone : ∀ x ∈ done, x.started)
    (hout : it.stdoutPipe = none) (herr : it.stderrPipe = none) (hstart : it.start = some e) :
    runProcess w proc (done ++ it :: rest) =
      runProcess w proc done ++
        [.cmdStart proc.Command proc.Args (w.Abs proc.WorkingDir).1,
         .log ("Failed to start process " ++ proc.Name ++ ": " ++ e.Error),
         .exit 1] := by
  rw [runProcess_append w proc done _ hdone]
  simp [runProcess, hout, herr, hstart, logFatal]

theorem runProcess_start_failure_witness :
    runProcess sampleWorld sampleProcess ([crashTurn] ++ failedTurn :: [crashTurn]) =
      runProcess sampleWorld sampleProcess [crashTurn] ++
        [.cmdStart "serve" ["-p", "80"] "/srv/site",
         .log ("Failed to start process " ++ "web" ++ ": " ++
            (GoError.other "fork/exec serve: no such file or directory").Error),
         .exit 1] :=
  runProcess_start_failure sampleWorld sampleProcess [crashTurn] [crashTurn] failedTurn
    (.other "fork/exec serve: no such file or directory")
    (by
      intro x hx
      have hx2 : x = crashTurn := by simpa using hx
      subst hx2
      exact ⟨rfl, rfl, rfl⟩)
    rfl rfl rfl

/-- Claim C6.  Whatever the specification and the result of `cmd.Wait()`, a turn
of the loop in which the child was started goes on, once the child has exited,
with exactly one print, `Process <name> exited unexpectedly: <err>` when
`cmd.Wait()` returned the error `err` and `Process <name> exited normally.` when
it returned `nil`, then `time.Sleep` of 5 seconds (5000000000 nanoseconds), then
the next turn of the same loop; the trace of the turn depends on the result of
`cmd.Wait()` through the printed line only.  The next turn, when its pipes are
created, calls `cmd.Start()` for the same command, arguments and directory. -/
theorem runProcess_exit_restart (w : World) (proc : Process) (it : Iteration)
    (rest : List Iteration) (h : it.started) :
    runProcess w proc (it :: rest) =
      [.cmdStart proc.Command proc.Args (w.Abs proc.WorkingDir).1,
       .goPipeOutput proc.Name .stdout,
       .goPipeOutput proc.Name .stderr,
       .print ("Started process: " ++ proc.Name ++ "\n"),
       .cmdWait,
       .print (match it.wait with
               | some err =>
                 "Process " ++ proc.Name ++ " exited unexpectedly: " ++ err.Error ++ "\n"
               | none => "Process " ++ proc.Name ++ " exited normally.\n"),
       .sleep 5000000000] ++ runProcess w proc rest ∧
    ∀ next more, rest = next :: more → next.stdoutPipe = none → next.stderrPipe = none →
      ∃ tail, runProcess w proc rest =
        .cmdStart proc.Command proc.Args (w.Abs proc.WorkingDir).1 :: tail := by
  constructor
  · rw [runProcess_started w proc it rest h]
    cases hw : it.wait <;> simp [turnTrace, exitLine, hw, Second]
  · intro next more hrest h1 h2
    subst hrest
    cases h3 : next.start with
    | none => exact ⟨_, by simp [runProcess, h1, h2, h3]; rfl⟩
    | some e => exact ⟨_, by simp [runProcess, h1, h2, h3]; rfl⟩

theorem runProcess_exit_restart_witness :
    runProcess sampleWorld sampleProcess [crashTurn, crashTurn] =
      [.cmdStart "serve" ["-p", "80"] "/srv/site",
       .goPipeOutput "web" .stdout,
       .goPipeOutput "web" .stderr,
       .print "Started process: web\n",
       .cmdWait,
       .print "Process web exited unexpectedly: exit status 1\n",
       .sleep 5000000000] ++ runProcess sampleWorld sampleProcess [crashTurn] ∧
    ∃ tail, runProcess sampleWorld sampleProcess [crashTurn] =
      .cmdStart "serve" ["-p", "80"] "/srv/site" :: tail :=
  have h := runProcess_exit_restart sampleWorld sampleProcess crashTurn [crashTurn]
    ⟨rfl, rfl, rfl⟩
  ⟨h.1.trans (by decide), h.2 crashTurn [] rfl rfl rfl⟩

/-- Claim C7.  The loop of `runProcess`, seen as a step function over the phases
`Starting`, `Running`, `Exited` and `Sleeping`.

* In every reachable state, of the children started by the calls of
  `cmd.Start()` made so far all but `alive` have been waited for by a call of
  `cmd.Wait()`; `alive` is at most one, and it is one in the phase `Running`
  only.
* From a reachable state the steps are these and no others.  From `Starting`,
  with no child alive: the call of `cmd.Start()`, the two relays and the
  `Started process` line, into `Running`; or, when a pipe or the child cannot
  be created, the end of the whole program in `os.Exit(1)` after a log line,
  as in `runProcess`.  From `Running`: the call of `cmd.Wait()`, into `Exited`
  with no child alive.  From `Exited`: the print of the outcome, into
  `Sleeping`.  From `Sleeping`: `time.Sleep` of five seconds, into `Starting`.
* Every state has a step to a next state: the loop does not stop by itself.
* The steps make the calls of `runProcess`.
* In the trace of `runProcess`, whenever `cmd.Start()` is called every child
  started before has been waited for, and unless it is the first call the
  three calls before it are `cmd.Wait()`, the print of the outcome and
  `time.Sleep` of five seconds; at every point of the trace at most one child
  has been started and not yet waited for. -/
theorem runProcess_one_child (w : World) (proc : Process) :
    (∀ tr s, ReachableBy w proc tr s →
      startCalls tr = waitReturns tr + s.alive ∧ s.alive ≤ 1 ∧
      (s.alive = 1 ↔ s.phase = .Running)) ∧
    (∀ it tr s, ReachableBy w proc tr s →
      (s.phase = .Starting ∧ s.alive = 0 ∧ it.started ∧
        step w proc it s = .next { s with phase := .Running, alive := 1 }
          [.cmdStart proc.Command proc.Args (w.Abs proc.WorkingDir).1,
           .goPipeOutput proc.Name .stdout,
           .goPipeOutput proc.Name .stderr,
           .print ("Started process: " ++ proc.Name ++ "\n")]) ∨
      (s.phase = .Starting ∧ s.alive = 0 ∧ ¬ it.started ∧
        ∃ pre msg, step w proc it s = .exit (pre ++ [.log msg, .exit 1]) ∧
          runProcess w proc [it] = pre ++ [.log msg, .exit 1]) ∨
      (s.phase = .Running ∧ s.alive = 1 ∧
        step w proc it s =
          .next { phase := .Exited, alive := 0, waitErr := it.wait } [.cmdWait]) ∨
      (s.phase = .Exited ∧ s.alive = 0 ∧
        step w proc it s =
          .next { s with phase := .Sleeping } [.print (exitLine proc s.waitErr)]) ∨
      (s.phase = .Sleeping ∧ s.alive = 0 ∧
        step w proc it s = .next { s with phase := .Starting } [.sleep 5000000000])) ∧
    (∀ s, ∃ it s1 acts, step w proc it s = .next s1 acts) ∧
    (∀ its, runSteps w proc its LoopState.init = runProcess w proc its) ∧
    (∀ its pre c a d post, runProcess w proc its = pre ++ .cmdStart c a d :: post →
      startCalls pre = waitReturns pre ∧
      (pre = [] ∨ ∃ pre1 e,
        pre = pre1 ++ [.cmdWait, .print (exitLine proc e), .sleep 5000000000])) ∧
    (∀ its n,
      waitReturns ((runProcess w proc its).take n) ≤ startCalls ((runProcess w proc its).take n) ∧
      startCalls ((runProcess w proc its).take n) ≤
        waitReturns ((runProcess w proc its).take n) + 1) := by
  refine ⟨fun tr s hs => ?_, fun it tr s hs => ?_, fun s => ?_,
    fun its => runSteps_eq_runProcess w proc its LoopState.init rfl,
    runProcess_cmdStart_split w proc, runProcess_take_alive w proc⟩
  · obtain ⟨h1, h2⟩ := reachable_alive w proc tr s hs
    refine ⟨h2, ?_, ?_⟩
    · rw [h1]; split <;> omega
    · by_cases hp : s.phase = .Running
      · simp [h1, hp]
      · simp [h1, hp]
  · obtain ⟨ha, _⟩ := reachable_alive w proc tr s hs
    obtain ⟨ph, al, we⟩ := s
    cases ph with
    | Starting =>
      simp only [reduceCtorEq, if_false] at ha
      subst ha
      cases h1 : it.stdoutPipe with
      | some e =>
        refine Or.inr (Or.inl ⟨rfl, rfl, fun h => by simp [h.1] at h1, [],
          "Failed to get stdout for process " ++ proc.Name ++ ": " ++ e.Error, ?_, ?_⟩)
        · simp [step, h1, logFatal]
        · simp [runProcess, h1, logFatal]
      | none =>
        cases h2 : it.stderrPipe with
        | some e =>
          refine Or.inr (Or.inl ⟨rfl, rfl, fun h => by simp [h.2.1] at h2, [],
            "Failed to get stderr for process " ++ proc.Name ++ ": " ++ e.Error, ?_, ?_⟩)
          · simp [step, h1, h2, logFatal]
          · simp [runProcess, h1, h2, logFatal]
        | none =>
          cases h3 : it.start with
          | some e =>
            refine Or.inr (Or.inl ⟨rfl, rfl, fun h => by simp [h.2.2] at h3,
              [.cmdStart proc.Command proc.Args (w.Abs proc.WorkingDir).1],
              "Failed to start process " ++ proc.Name ++ ": " ++ e.Error, ?_, ?_⟩)
            · simp [step, h1, h2, h3, logFatal]
            · simp [runProcess, h1, h2, h3, logFatal]
          | none =>
            refine Or.inl ⟨rfl, rfl, ⟨h1, h2, h3⟩, ?_⟩
            simp [step, h1, h2, h3]
    | Running =>
      simp only [if_true] at ha
      subst ha
      exact Or.inr (Or.inr (Or.inl ⟨rfl, rfl, rfl⟩))
    | Exited =>
      simp only [reduceCtorEq, if_false] at ha
      subst ha
      exact Or.inr (Or.inr (Or.inr (Or.inl ⟨rfl, rfl, rfl⟩)))
    | Sleeping =>
      simp only [reduceCtorEq, if_false] at ha
      subst ha
      exact Or.inr (Or.inr (Or.inr (Or.inr ⟨rfl, rfl, rfl⟩)))
  · obtain ⟨ph, al, we⟩ := s
    cases ph with
    | Starting => exact ⟨⟨none, none, none, none⟩, _, _, rfl⟩
    | Running => exact ⟨⟨none, none, none, none⟩, _, _, rfl⟩
    | Exited => exact ⟨⟨none, none, none, none⟩, _, _, rfl⟩
    | Sleeping => exact ⟨⟨none, none, none, none⟩, _, _, rfl⟩

theorem runProcess_one_child_witness :
    ReachableBy sampleWorld sampleProcess
      [.cmdStart "serve" ["-p", "80"] "/srv/site",
       .goPipeOutput "web" .stdout,
       .goPipeOutput "web" .stderr,
       .print "Started process: web\n",
       .cmdWait]
      { phase := .Exited, alive := 0, waitErr := some (.other "exit status 1") } ∧
    startCalls
      [.cmdStart "serve" ["-p", "80"] "/srv/site",
       .goPipeOutput "web" .stdout,
       .goPipeOutput "web" .stderr,
       .print "Started process: web\n",
       .cmdWait] =
      waitReturns
        [.cmdStart "serve" ["-p", "80"] "/srv/site",
         .goPipeOutput "web" .stdout,
         .goPipeOutput "web" .stderr,
         .print "Started process: web\n",
         .cmdWait] + 0 :=
  have h1 := ReachableBy.step crashTurn [] LoopState.init _ _ ReachableBy.init
    (rfl : step sampleWorld sampleProcess crashTurn LoopState.init =
      .next { phase := .Running, alive := 1, waitErr := none }
        [.cmdStart "serve" ["-p", "80"] "/srv/site",
         .goPipeOutput "web" .stdout,
         .goPipeOutput "web" .stderr,
         .print "Started process: web\n"])
  have h2 := ReachableBy.step crashTurn _ _ _ _ h1
    (rfl : step sampleWorld sampleProcess crashTurn
        { phase := .Running, alive := 1, waitErr := none } =
      .next { phase := .Exited, alive := 0, waitErr := some (.other "exit status 1") }
        [.cmdWait])
  ⟨h2, ((runProcess_one_child sampleWorld sampleProcess).1 _ _ h2).1⟩

/-! ## The entry point: claims -/

/-- Claim C8.  When the command line names a configuration file and `loadConfig`
returns a configuration, the restart loops that `main` starts are the process
specifications of the configuration, one loop for each, in the order of the
configuration: there are as many loops as specifications, and the loop at
position `i` is given the specification at position `i`. -/
theorem main_starts_loops (w : World) (args : List String) (sig : Option Signal)
    (config : Config) (hargs : 2 ≤ args.length)
    (hload : loadConfig w (args.getD 1 "") = .ok config) :
    loopsStarted (main w args sig) = config.Processes ∧
    (loopsStarted (main w args sig)).length = config.Processes.length ∧
    ∀ i (h : i < config.Processes.length),
      (loopsStarted (main w args sig))[i]? = some config.Processes[i] := by
  have hmain : loopsStarted (main w args sig) = config.Processes := by
    have hlt : ¬ args.length < 2 := by omega
    simp only [main, hlt, if_false, hload]
    cases sig <;> simp [loopsStarted, loopsStarted_map_append]
  refine ⟨hmain, by rw [hmain], fun i h => ?_⟩
  rw [hmain]
  exact List.getElem?_eq_getElem h

theorem main_starts_loops_witness :
    loopsStarted (main sampleWorld ["runner", "runner.yaml"] none) =
      [sampleProcess, otherProcess] ∧
    (loopsStarted (main sampleWorld ["runner", "runner.yaml"] none)).length = 2 ∧
    ∀ i (h : i < [sampleProcess, otherProcess].length),
      (loopsStarted (main sampleWorld ["runner", "runner.yaml"] none))[i]? =
        some [sampleProcess, otherProcess][i] :=
  main_starts_loops sampleWorld ["runner", "runner.yaml"] none
    { Processes := [sampleProcess, otherProcess] } (by decide) rfl

/-- Claim C9.  When the command line has no configuration file argument, `main`
logs `Usage: runner <config-file>` and calls `os.Exit(1)`, and that is all it
does.  When `loadConfig` returns an error, which it does when the file cannot be
read and when the document cannot be parsed, `main` logs
`Failed to load config: <error>` and calls `os.Exit(1)`, and that is all it does.
In both cases no restart loop is started. -/
theorem main_fatal_startup (w : World) (args : List String) (sig : Option Signal) :
    (args.length < 2 →
      main w args sig = [.log "Usage: runner <config-file>", .exit 1] ∧
      loopsStarted (main w args sig) = []) ∧
    (∀ err, 2 ≤ args.length → loadConfig w (args.getD 1 "") = .error err →
      main w args sig = [.log ("Failed to load config: " ++ err.Error), .exit 1] ∧
      loopsStarted (main w args sig) = []) ∧
    (∀ path err, w.ReadFile path = .error err → loadConfig w path = .error err) ∧
    (∀ path file err, w.ReadFile path = .ok file → w.Unmarshal file = .error err →
      loadConfig w path = .error err) := by
  refine ⟨fun h => ?_, fun err h hload => ?_, fun path err h => ?_, fun path file err h1 h2 => ?_⟩
  · have hm : main w args sig = [.log "Usage: runner <config-file>", .exit 1] := by
      simp [main, h, logFatal]
    exact ⟨hm, by rw [hm]; rfl⟩
  · have hlt : ¬ args.length < 2 := by omega
    have hm : main w args sig = [.log ("Failed to load config: " ++ err.Error), .exit 1] := by
      simp only [main, hlt, if_false, hload, logFatal]
    exact ⟨hm, by rw [hm]; rfl⟩
  · simp [loadConfig, h]
  · simp [loadConfig, h1, h2]

theorem main_fatal_startup_witness :
    (main sampleWorld ["runner"] none = [.log "Usage: runner <config-file>", .exit 1] ∧
      loopsStarted (main sampleWorld ["runner"] none) = []) ∧
    (main sampleWorld ["runner", "missing.yaml"] none =
        [.log ("Failed to load config: " ++
          (GoError.other "open missing.yaml: no such file or directory").Error), .exit 1] ∧
      loopsStarted (main sampleWorld ["runner", "missing.yaml"] none) = []) :=
  ⟨(main_fatal_startup sampleWorld ["runner"] none).1 (by decide),
   (main_fatal_startup sampleWorld ["runner", "missing.yaml"] none).2.1
      (.other "open missing.yaml: no such file or directory") (by decide) rfl⟩

end Runner
